import Mathlib

/-!
Verification of the habit-tracker streak engine, analytics functions,
habit construction, and store interface, as a shallow embedding of the
Python sources (app/models/habit.py, app/analysis/analyse.py,
app/db/database.py) into Lean.

Conventions of the embedding:
- Python `datetime.date` values are triples (year, month, day); Python
  compares dates lexicographically on these components, which `Date.ltB`
  reproduces.
- Python `date + timedelta(days=k)` on valid dates is the k-fold calendar
  successor, embedded as `addDays` over `nextDay`.
- The mutating method `Habit.check_off` is embedded as a pure state
  transition returning the updated habit record; the `on_date=None`
  default (today) is the caller's injection of ambient time and is
  outside the transition itself, so the embedded `check_off` takes the
  completion date explicitly.
- `streak` is declared `int` in the dataclass; the data model specifies
  a non-negative count and every assignment in the program writes 0, 1,
  or an increment of a stored value, so it is embedded as `Nat`.
- Fallible construction (`from_form`, which raises `ValueError`) is
  embedded as `Except String Habit`.
-/

/-- Calendar date, embedding Python `datetime.date` (year, month, day). -/
structure Date where
  year : Nat
  month : Nat
  day : Nat
deriving DecidableEq, Repr

/-- Python date comparison: lexicographic on (year, month, day). -/
def Date.ltB (a b : Date) : Bool :=
  a.year < b.year ||
    (a.year == b.year &&
      (a.month < b.month || (a.month == b.month && a.day < b.day)))

/-- Gregorian leap-year rule, as used by Python `calendar.isleap`. -/
def isLeap (y : Nat) : Bool :=
  (y % 4 == 0 && y % 100 != 0) || y % 400 == 0

/-- Number of days in a month, embedding `calendar.monthrange(y, m)[1]`
for m in 1..12 (the only arguments the program passes it). -/
def daysInMonth (y m : Nat) : Nat :=
  if m = 2 then (if isLeap y then 29 else 28)
  else if m = 4 ∨ m = 6 ∨ m = 9 ∨ m = 11 then 30
  else 31

/-- Calendar successor of a date: embeds `d + timedelta(days=1)`. -/
def nextDay (d : Date) : Date :=
  if d.day < daysInMonth d.year d.month then ⟨d.year, d.month, d.day + 1⟩
  else if d.month < 12 then ⟨d.year, d.month + 1, 1⟩
  else ⟨d.year + 1, 1, 1⟩

/-- k-fold calendar successor: embeds `d + timedelta(days=k)`. -/
def addDays (d : Date) : Nat → Date
  | 0 => d
  | n + 1 => nextDay (addDays d n)

/-- Time of day (hour, minute), embedding Python `datetime.time` as the
program uses it (HH:MM granularity). -/
structure Time where
  hour : Nat
  minute : Nat
deriving DecidableEq, Repr

/-- Date plus time of day, embedding Python `datetime.datetime` at the
granularity the program uses. -/
structure DateTime where
  date : Date
  time : Time
deriving DecidableEq, Repr

/-- Habit periodicity: the three values of the `Periodicity` literal type. -/
inductive Periodicity where
  | daily
  | weekly
  | monthly
deriving DecidableEq, Repr

/-- The `Habit` dataclass of app/models/habit.py. -/
structure Habit where
  name : String
  description : String
  goal : String
  start_date : DateTime
  periodicity : Periodicity
  reminder : Option Time
  completed : Bool
  streak : Nat
  last_completed_date : Option Date
deriving DecidableEq, Repr

/-- Embeds `Habit._expected_next_date`: the date that would continue the
current streak, or none when there is no previous completion. Daily is
last + 1 day, weekly is last + timedelta(weeks=1) = 7 days, monthly adds
one to the month (rolling 13 to month 1 of the next year) and clamps the
day to that month's length. -/
def expected_next_date (h : Habit) : Option Date :=
  match h.last_completed_date with
  | none => none
  | some d =>
    match h.periodicity with
    | .daily => some (addDays d 1)
    | .weekly => some (addDays d 7)
    | .monthly =>
      let year := d.year
      let month := d.month + 1
      let ym : Nat × Nat := if month = 13 then (year + 1, 1) else (year, month)
      let last_day := daysInMonth ym.1 ym.2
      some ⟨ym.1, ym.2, min d.day last_day⟩

/-- Embeds `Habit.check_off(on_date)` as a pure transition. The source
mutates `self` and ends by setting `completed = True` and
`last_completed_date = on_date` on every path; here those assignments are
distributed into each branch of the streak update. -/
def check_off (h : Habit) (on_date : Date) : Habit :=
  match h.last_completed_date with
  | none =>
    { h with streak := 1, completed := true, last_completed_date := some on_date }
  | some _ =>
    match expected_next_date h with
    | some expected =>
      if on_date = expected then
        { h with streak := h.streak + 1, completed := true,
                 last_completed_date := some on_date }
      else if Date.ltB expected on_date then
        { h with streak := 1, completed := true,
                 last_completed_date := some on_date }
      else
        { h with completed := true, last_completed_date := some on_date }
    | none =>
      { h with completed := true, last_completed_date := some on_date }

/-- The next-period date as the spec words it: daily is last + 1 day,
weekly is last + 7 days, monthly is the same day-of-month in the following
month clamped to that month's last valid day, with month 12 rolling to
month 1 of the next year. Stated separately from `expected_next_date`
(which follows the source) so the two can be compared. -/
def nextPeriodDateSpec (d : Date) (p : Periodicity) : Date :=
  match p with
  | .daily => addDays d 1
  | .weekly => addDays d 7
  | .monthly =>
    let ym : Nat × Nat :=
      if d.month = 12 then (d.year + 1, 1) else (d.year, d.month + 1)
    ⟨ym.1, ym.2, min d.day (daysInMonth ym.1 ym.2)⟩


/-- Lexicographic strictness: ltB is asymmetric. -/
lemma Date.ltB_asymm {a b : Date} (h : Date.ltB a b = true) :
    Date.ltB b a = false := by
  obtain ⟨ay, am, ad⟩ := a
  obtain ⟨by_, bm, bd⟩ := b
  simp only [Date.ltB, Bool.or_eq_true, Bool.and_eq_true, decide_eq_true_eq,
    beq_iff_eq, Bool.or_eq_false_iff, Bool.and_eq_false_iff,
    decide_eq_false_iff_not, beq_eq_false_iff_ne, ne_eq, not_lt] at h ⊢
  omega

/-- ltB is irreflexive. -/
lemma Date.ltB_irrefl (a : Date) : Date.ltB a a = false := by
  simp [Date.ltB]

/-- Lexicographic strictness: ltB implies inequality. -/
lemma Date.ltB_ne {a b : Date} (h : Date.ltB a b = true) : a ≠ b := by
  intro heq
  rw [heq, Date.ltB_irrefl] at h
  exact Bool.false_ne_true h

/-- ltB is transitive. -/
lemma Date.ltB_trans {a b c : Date} (hab : Date.ltB a b = true)
    (hbc : Date.ltB b c = true) : Date.ltB a c = true := by
  obtain ⟨ay, am, ad⟩ := a
  obtain ⟨by_, bm, bd⟩ := b
  obtain ⟨cy, cm, cd⟩ := c
  simp only [Date.ltB, Bool.or_eq_true, Bool.and_eq_true, decide_eq_true_eq,
    beq_iff_eq] at hab hbc ⊢
  omega

/-- Every date is strictly before its calendar successor. -/
lemma Date.ltB_nextDay (d : Date) : Date.ltB d (nextDay d) = true := by
  obtain ⟨y, m, dd⟩ := d
  simp only [nextDay]
  split
  · simp [Date.ltB]
  · split
    · simp [Date.ltB]
    · simp [Date.ltB]

/-- Every date is strictly before its (k+1)-fold calendar successor. -/
lemma Date.ltB_addDays (d : Date) (n : Nat) :
    Date.ltB d (addDays d (n + 1)) = true := by
  induction n with
  | zero => exact Date.ltB_nextDay d
  | succ k ih =>
      exact Date.ltB_trans ih (Date.ltB_nextDay (addDays d (k + 1)))

/-- The spec's next-period date is strictly after the anchor date, for
every periodicity. -/
lemma Date.ltB_nextPeriod (d : Date) (p : Periodicity) :
    Date.ltB d (nextPeriodDateSpec d p) = true := by
  cases p with
  | daily => exact Date.ltB_addDays d 0
  | weekly => exact Date.ltB_addDays d 6
  | monthly =>
      obtain ⟨y, m, dd⟩ := d
      by_cases h12 : m = 12 <;> simp [nextPeriodDateSpec, h12, Date.ltB]

/-- The source's expected next date agrees with the spec's wording: with a
previous completion on d, it is the next-period date of d. -/
lemma expected_next_date_eq_spec (h : Habit) (d : Date)
    (hl : h.last_completed_date = some d) :
    expected_next_date h = some (nextPeriodDateSpec d h.periodicity) := by
  cases p : h.periodicity with
  | daily => simp [expected_next_date, nextPeriodDateSpec, hl, p]
  | weekly => simp [expected_next_date, nextPeriodDateSpec, hl, p]
  | monthly =>
      simp only [expected_next_date, nextPeriodDateSpec, hl, p]
      by_cases h12 : d.month = 12
      · simp [h12]
      · have h13 : d.month + 1 ≠ 13 := by omega
        simp [h12, h13]

/-- Split a character list on a separator character, yielding the
separator-free runs in order (n separators yield n+1 runs). This is the
decomposition the strptime format %Y-%m-%d induces: literal separators
between digit-run fields. -/
def splitOnChar (sep : Char) : List Char → List (List Char)
  | [] => [[]]
  | c :: rest =>
    match splitOnChar sep rest with
    | [] => if c = sep then [[], [c]] else [[c]]
    | g :: gs => if c = sep then [] :: g :: gs else (c :: g) :: gs

/-- Numeric value of a digit run (most significant first), embedding
Python int() on the matched group. -/
def digitsVal (cs : List Char) : Nat :=
  cs.foldl (fun n c => n * 10 + (c.toNat - 48)) 0

/-- All characters of the run are decimal digits. -/
def allDigits (cs : List Char) : Bool :=
  cs.all Char.isDigit

/-- The month field of strptime's %Y-%m-%d: the regex 1[0-2]|0[1-9]|[1-9]
followed by a literal, i.e. a run of one digit with value 1..9 or two
digits with value 01..12. -/
def monthRunB (cs : List Char) : Bool :=
  allDigits cs &&
    decide ((cs.length = 1 ∧ 1 ≤ digitsVal cs ∧ digitsVal cs ≤ 9) ∨
      (cs.length = 2 ∧ 1 ≤ digitsVal cs ∧ digitsVal cs ≤ 12))

/-- The day field of strptime's %Y-%m-%d: the regex
3[01]|[12]\d|0[1-9]|[1-9]| [1-9] at end of input, i.e. one digit with
value 1..9, two digits 01..31, or a space followed by a digit 1..9
(CPython's blank-padded-day alternative). -/
def dayRunB (cs : List Char) : Bool :=
  (allDigits cs &&
    decide ((cs.length = 1 ∧ 1 ≤ digitsVal cs ∧ digitsVal cs ≤ 9) ∨
      (cs.length = 2 ∧ 1 ≤ digitsVal cs ∧ digitsVal cs ≤ 31))) ||
  (match cs with
   | [c1, c2] =>
     c1 == Char.ofNat 32 && decide (49 ≤ c2.toNat ∧ c2.toNat ≤ 57)
   | _ => false)

/-- Value of the day field: int() of the matched group, which ignores a
leading blank in the blank-padded-day alternative. -/
def dayVal (cs : List Char) : Nat :=
  digitsVal (cs.dropWhile (fun c => c == Char.ofNat 32))

/-- The hour field of strptime's %H:%M: the regex 2[0-3]|[0-1]\d|\d,
i.e. one digit 0..9 or two digits 00..23. -/
def hourRunB (cs : List Char) : Bool :=
  allDigits cs &&
    decide ((cs.length = 1 ∧ cs ≠ []) ∨ (cs.length = 2 ∧ digitsVal cs ≤ 23))

/-- The minute field of strptime's %H:%M: the regex [0-5]\d|\d,
i.e. one digit 0..9 or two digits 00..59. -/
def minuteRunB (cs : List Char) : Bool :=
  allDigits cs &&
    decide ((cs.length = 1 ∧ cs ≠ []) ∨ (cs.length = 2 ∧ digitsVal cs ≤ 59))

/-- Embeds `datetime.strptime(s, "%Y-%m-%d")` (then `.date()` by the
callers): a four-digit year, a hyphen, a month field, a hyphen, a day
field consuming the rest of the string; constructing the date then
requires year at least MINYEAR = 1 and the day to exist in the month
(otherwise ValueError), modelled as `none`. -/
def parseYMD (s : String) : Option Date :=
  match splitOnChar (Char.ofNat 45) s.toList with
  | [ys, ms, ds] =>
    if ys.length = 4 ∧ allDigits ys = true ∧ monthRunB ms = true ∧
        dayRunB ds = true then
      let y := digitsVal ys
      let m := digitsVal ms
      let d := dayVal ds
      if 1 ≤ y ∧ d ≤ daysInMonth y m then some ⟨y, m, d⟩ else none
    else none
  | _ => none

/-- Embeds `datetime.strptime(s, "%H:%M").time()`: an hour field, a
colon, a minute field consuming the rest of the string. -/
def parseHM (s : String) : Option Time :=
  match splitOnChar (Char.ofNat 58) s.toList with
  | [hs, ms] =>
    if hourRunB hs = true ∧ minuteRunB ms = true then
      some ⟨digitsVal hs, digitsVal ms⟩
    else none
  | _ => none

/-- The reminder handling of `Habit.from_form`: `if reminder:` skips
parsing for None and for the empty string (Python truthiness), otherwise
the string must parse as %H:%M or a ValueError is raised. -/
def parseReminder (reminder : Option String) : Except String (Option Time) :=
  match reminder with
  | none => Except.ok none
  | some r =>
    if r.toList = [] then Except.ok none
    else
      match parseHM r with
      | some t => Except.ok (some t)
      | none => Except.error "time data does not match format %H:%M"

/-- Embeds `Habit.from_form`: parses the start date (raising on format
errors), then the optional reminder, then validates the periodicity
string, and constructs the habit with the dataclass defaults
completed = False, streak = 0, last_completed_date = None. The source
keeps the validated periodicity string; here it is mapped onto the
`Periodicity` constructors after the same membership test. -/
def from_form (name description goal : String) (start_date : String)
    (periodicity : String) (reminder : Option String) : Except String Habit :=
  match parseYMD start_date with
  | none => Except.error "time data does not match format %Y-%m-%d"
  | some sd =>
    match parseReminder reminder with
    | Except.error e => Except.error e
    | Except.ok rt =>
      if periodicity = "daily" then
        Except.ok ⟨name, description, goal, ⟨sd, ⟨0, 0⟩⟩, Periodicity.daily,
          rt, false, 0, none⟩
      else if periodicity = "weekly" then
        Except.ok ⟨name, description, goal, ⟨sd, ⟨0, 0⟩⟩, Periodicity.weekly,
          rt, false, 0, none⟩
      else if periodicity = "monthly" then
        Except.ok ⟨name, description, goal, ⟨sd, ⟨0, 0⟩⟩, Periodicity.monthly,
          rt, false, 0, none⟩
      else
        Except.error "Periodicity must be one of: daily, weekly, monthly."


/-- A habit row as the analytics module consumes it: a mapping with the
fields `_as_view` and the query functions read. `id` and `name` are
always present (`row["id"]`, `row["name"]` would raise otherwise);
`periodicity`, `streak` and `last_completed_date` are read with `.get`
and so may be absent, modelled as options. -/
structure Row where
  id : Int
  name : String
  periodicity : Option String
  streak : Option Int
  last_completed_date : Option String
deriving DecidableEq, Repr

/-- The frozen `HabitView` dataclass of app/analysis/analyse.py. -/
structure HabitView where
  id : Int
  name : String
  periodicity : String
  streak : Int
  last_completed_date : Option String
deriving DecidableEq, Repr

/-- Embeds `_as_view`: converts a row into a HabitView, defaulting a
missing periodicity to "daily" and a missing streak to 0. -/
def as_view (r : Row) : HabitView :=
  { id := r.id
    name := r.name
    periodicity := r.periodicity.getD "daily"
    streak := r.streak.getD 0
    last_completed_date := r.last_completed_date }

/-- Embeds `list_all_habits`: every row as a view, in input order. -/
def list_all_habits (rows : List Row) : List HabitView :=
  rows.map as_view

/-- Embeds `list_by_periodicity`: the rows whose periodicity field
(read without a default) equals the query value, in input order. -/
def list_by_periodicity (rows : List Row) (p : String) : List HabitView :=
  (rows.filter (fun r => r.periodicity == some p)).map as_view

/-- One step of Python's `max(views, key=lambda v: v.streak)`: the
running best is replaced only when the candidate is strictly greater,
so the first maximum in input order wins. -/
def pickMax (best v : HabitView) : HabitView :=
  if best.streak < v.streak then v else best

/-- Embeds `longest_run_streak`: (habit_id, streak) of the max-streak
view, or (None, 0) when there are no rows. -/
def longest_run_streak (rows : List Row) : Option Int × Int :=
  match list_all_habits rows with
  | [] => (none, 0)
  | v :: vs =>
    let top := vs.foldl pickMax v
    (some top.id, top.streak)

/-- Embeds `longest_run_streak_for`: the streak of the first row whose
id equals habit_id (0 when that row lacks a streak field), or 0 when no
row matches. -/
def longest_run_streak_for (rows : List Row) (habit_id : Int) : Int :=
  match rows.find? (fun r => r.id == habit_id) with
  | some r => r.streak.getD 0
  | none => 0

/-- The column values a habit INSERT supplies, as passed by every caller
of `Database.save_habit` (cli.py and tests pass exactly these keyword
arguments; the id column is assigned by SQLite). -/
structure HabitRowFields where
  user_id : Int
  name : String
  description : String
  goal : String
  start_date : String
  periodicity : String
  reminder : Option String
  completed : Int
  streak : Int
  last_completed_date : Option String
deriving DecidableEq, Repr

/-- The habits table of the SQLite store: rows keyed by the
autoincrement rowid. -/
structure Database where
  habits : List (Nat × HabitRowFields)
  next_rowid : Nat
deriving DecidableEq, Repr

/-- Embeds `Database.save_habit`: builds an INSERT from its keyword
arguments and commits, so a new row with the next autoincrement id is
appended. The docstring and the `-> int` annotation promise the newly
created habit ID, but the function body has no return statement, so the
Python call evaluates to None, modelled as `none` in the second
component. -/
def save_habit (db : Database) (fields : HabitRowFields) :
    Database × Option Nat :=
  ({ habits := db.habits ++ [(db.next_rowid, fields)],
     next_rowid := db.next_rowid + 1 }, none)

/-- On every branch, check_off only rewrites streak, completed and
last_completed_date, setting the latter two to true and the passed date. -/
lemma check_off_fields (h : Habit) (d : Date) :
    (check_off h d).name = h.name ∧
    (check_off h d).description = h.description ∧
    (check_off h d).goal = h.goal ∧
    (check_off h d).start_date = h.start_date ∧
    (check_off h d).periodicity = h.periodicity ∧
    (check_off h d).reminder = h.reminder ∧
    (check_off h d).completed = true ∧
    (check_off h d).last_completed_date = some d := by
  unfold check_off
  repeat' split
  all_goals exact ⟨rfl, rfl, rfl, rfl, rfl, rfl, rfl, rfl⟩

/-- C1: check_off follows the spec's transition rule on every state: a
first-ever completion yields streak 1; with a previous completion on d
and expected the next-period date of d, completing exactly on expected
increments the streak by exactly 1, completing strictly after expected
resets it to exactly 1, and completing strictly before expected leaves
it unchanged. -/
theorem check_off_streak_transition (h : Habit) (on_date : Date) :
    (h.last_completed_date = none → (check_off h on_date).streak = 1) ∧
    (∀ d, h.last_completed_date = some d →
      (on_date = nextPeriodDateSpec d h.periodicity →
        (check_off h on_date).streak = h.streak + 1) ∧
      (Date.ltB (nextPeriodDateSpec d h.periodicity) on_date = true →
        (check_off h on_date).streak = 1) ∧
      (Date.ltB on_date (nextPeriodDateSpec d h.periodicity) = true →
        (check_off h on_date).streak = h.streak)) := by
  constructor
  · intro hl
    simp [check_off, hl]
  · intro d hl
    have he := expected_next_date_eq_spec h d hl
    simp only [check_off, hl, he]
    refine ⟨?_, ?_, ?_⟩
    · intro heq
      rw [if_pos heq]
    · intro hgt
      have hne : on_date ≠ nextPeriodDateSpec d h.periodicity :=
        fun c => (Date.ltB_ne hgt) c.symm
      rw [if_neg hne, if_pos hgt]
    · intro hlt
      have hne : on_date ≠ nextPeriodDateSpec d h.periodicity :=
        Date.ltB_ne hlt
      have hngt : ¬ Date.ltB (nextPeriodDateSpec d h.periodicity) on_date
          = true := by
        rw [Date.ltB_asymm hlt]
        exact Bool.false_ne_true
      rw [if_neg hne, if_neg hngt]

/-- C1 witness: a daily habit last completed 2025-01-10 with streak 3,
checked off on the expected date 2025-01-11, reaches streak 4. -/
theorem check_off_streak_transition_witness :
    (check_off ⟨"w", "w", "w", ⟨⟨2025, 1, 6⟩, ⟨0, 0⟩⟩, Periodicity.daily,
      none, true, 3, some ⟨2025, 1, 10⟩⟩ ⟨2025, 1, 11⟩).streak = 3 + 1 :=
  ((check_off_streak_transition
      ⟨"w", "w", "w", ⟨⟨2025, 1, 6⟩, ⟨0, 0⟩⟩, Periodicity.daily,
        none, true, 3, some ⟨2025, 1, 10⟩⟩ ⟨2025, 1, 11⟩).2
    ⟨2025, 1, 10⟩ rfl).1 (by decide)

/-- C2: with a previous completion on d, the expected next date used by
check_off is the spec's next-period date: d + 1 day for daily, d + 7
days for weekly, and for monthly the same day-of-month in the following
month clamped to that month's last valid day, with month 12 rolling to
month 1 of the next year. -/
theorem expected_next_date_matches_spec (h : Habit) (d : Date)
    (hl : h.last_completed_date = some d) :
    expected_next_date h = some (nextPeriodDateSpec d h.periodicity) :=
  expected_next_date_eq_spec h d hl

/-- C2 witness: a monthly habit last completed 2025-01-31 expects
2025-02-28, the clamped month-end of a non-leap February. -/
theorem expected_next_date_matches_spec_witness :
    expected_next_date ⟨"w", "w", "w", ⟨⟨2025, 1, 1⟩, ⟨0, 0⟩⟩,
      Periodicity.monthly, none, true, 1, some ⟨2025, 1, 31⟩⟩ =
      some ⟨2025, 2, 28⟩ := by
  rw [expected_next_date_matches_spec
    ⟨"w", "w", "w", ⟨⟨2025, 1, 1⟩, ⟨0, 0⟩⟩, Periodicity.monthly,
      none, true, 1, some ⟨2025, 1, 31⟩⟩ ⟨2025, 1, 31⟩ rfl]
  decide

/-- C3: save_habit appends a row under the next autoincrement id, but
its returned value is None (the body has no return statement), so the
callers that bind the return value as the new habit id receive None,
never the id of the inserted row. -/
theorem save_habit_returns_no_id (db : Database) (fields : HabitRowFields) :
    (save_habit db fields).1.habits.getLast? = some (db.next_rowid, fields) ∧
    (save_habit db fields).2 = none ∧
    (save_habit db fields).2 ≠ some db.next_rowid := by
  refine ⟨?_, rfl, by simp [save_habit]⟩
  simp [save_habit]

/-- C4 counterexample: on the prior state streak = 0 with a recorded
last completion (a state the claim's "any prior state" includes), a
same-day check-off leaves streak = 0, not at least 1. -/
theorem check_off_streak_zero_cex :
    (check_off ⟨"c", "c", "c", ⟨⟨2025, 1, 1⟩, ⟨0, 0⟩⟩, Periodicity.daily,
        none, false, 0, some ⟨2025, 1, 1⟩⟩ ⟨2025, 1, 1⟩).streak = 0 ∧
    ¬ 1 ≤ (check_off ⟨"c", "c", "c", ⟨⟨2025, 1, 1⟩, ⟨0, 0⟩⟩,
        Periodicity.daily, none, false, 0,
        some ⟨2025, 1, 1⟩⟩ ⟨2025, 1, 1⟩).streak := by
  decide

/-- C4 (amended): after check_off(on_date) on any prior state that is a
first completion or carries a positive streak (as the data-model
invariant guarantees), the result has streak at least 1, completed true,
and last_completed_date equal to the passed-in date — including early
and time-travel dates, which overwrite the anchor backwards. -/
theorem check_off_postconditions (h : Habit) (on_date : Date)
    (hpre : h.last_completed_date = none ∨ 1 ≤ h.streak) :
    1 ≤ (check_off h on_date).streak ∧
    (check_off h on_date).completed = true ∧
    (check_off h on_date).last_completed_date = some on_date := by
  refine ⟨?_, (check_off_fields h on_date).2.2.2.2.2.2.1,
    (check_off_fields h on_date).2.2.2.2.2.2.2⟩
  cases hl : h.last_completed_date with
  | none => simp [check_off, hl]
  | some d =>
      have hst : 1 ≤ h.streak := by
        rcases hpre with hn | hs
        · rw [hl] at hn; exact Option.noConfusion hn
        · exact hs
      have he := expected_next_date_eq_spec h d hl
      simp only [check_off, hl, he]
      split
      · simp
      · split
        · simp
        · simpa using hst

/-- C4 witness: a first-ever check-off on 2025-01-06 yields a state with
streak at least 1, completed true, and the anchor set to that date. -/
theorem check_off_postconditions_witness :
    1 ≤ (check_off ⟨"n", "n", "n", ⟨⟨2025, 1, 6⟩, ⟨0, 0⟩⟩,
        Periodicity.daily, none, false, 0, none⟩ ⟨2025, 1, 6⟩).streak ∧
    (check_off ⟨"n", "n", "n", ⟨⟨2025, 1, 6⟩, ⟨0, 0⟩⟩,
        Periodicity.daily, none, false, 0, none⟩ ⟨2025, 1, 6⟩).completed
      = true ∧
    Habit.last_completed_date (check_off ⟨"n", "n", "n",
        ⟨⟨2025, 1, 6⟩, ⟨0, 0⟩⟩, Periodicity.daily, none, false, 0, none⟩
      ⟨2025, 1, 6⟩) = some ⟨2025, 1, 6⟩ :=
  check_off_postconditions
    ⟨"n", "n", "n", ⟨⟨2025, 1, 6⟩, ⟨0, 0⟩⟩, Periodicity.daily, none,
      false, 0, none⟩ ⟨2025, 1, 6⟩ (Or.inl rfl)

/-- C10: check_off is idempotent on repeated same-date calls: a second
check-off on the same date leaves the whole habit state unchanged, for
every prior state and every periodicity. -/
theorem check_off_idempotent (h : Habit) (d : Date) :
    check_off (check_off h d) d = check_off h d := by
  obtain ⟨hn, hdesc, hg, hs, hp, hr, hc, hl⟩ := check_off_fields h d
  generalize hgen : check_off h d = h1 at hn hdesc hg hs hp hr hc hl ⊢
  obtain ⟨n1, d1, g1, s1, p1, r1, c1, st1, l1⟩ := h1
  simp only at hc hl
  subst hc hl
  have he := expected_next_date_eq_spec
    ⟨n1, d1, g1, s1, p1, r1, true, st1, some d⟩ d rfl
  have hltb : Date.ltB d (nextPeriodDateSpec d p1) = true :=
    Date.ltB_nextPeriod d p1
  have hne : d ≠ nextPeriodDateSpec d p1 := Date.ltB_ne hltb
  have hngt : ¬ Date.ltB (nextPeriodDateSpec d p1) d = true := by
    rw [Date.ltB_asymm hltb]
    exact Bool.false_ne_true
  simp only [check_off, he] at hne hngt ⊢
  rw [if_neg hne, if_neg hngt]

/-- The data-model invariant of the spec: streak is 0 exactly when no
completion has been recorded. -/
def HabitInv (h : Habit) : Prop :=
  h.streak = 0 ↔ h.last_completed_date = none

/-- C5: the invariant holds for every habit produced by the validated
construction step (which yields streak 0, completed false, no last
completion) and is preserved by every check_off call; moreover across a
single check_off the streak never decreases except to become exactly 1
on a missed-period reset (a completion strictly after the expected
date). -/
theorem habit_invariant_construction_preservation :
    (∀ nm ds gl sd p rm h, from_form nm ds gl sd p rm = Except.ok h →
      h.streak = 0 ∧ h.completed = false ∧ h.last_completed_date = none ∧
        HabitInv h) ∧
    (∀ (h : Habit) (on_date : Date), HabitInv h →
      HabitInv (check_off h on_date) ∧
      (h.streak ≤ (check_off h on_date).streak ∨
        ((check_off h on_date).streak = 1 ∧
          ∃ d, h.last_completed_date = some d ∧
            Date.ltB (nextPeriodDateSpec d h.periodicity) on_date
              = true))) := by
  constructor
  · intro nm ds gl sd p rm h hok
    unfold from_form at hok
    split at hok
    · exact Except.noConfusion hok
    · split at hok
      · exact Except.noConfusion hok
      · split at hok
        · injection hok with h2
          subst h2
          exact ⟨rfl, rfl, rfl, ⟨fun _ => rfl, fun _ => rfl⟩⟩
        · split at hok
          · injection hok with h2
            subst h2
            exact ⟨rfl, rfl, rfl, ⟨fun _ => rfl, fun _ => rfl⟩⟩
          · split at hok
            · injection hok with h2
              subst h2
              exact ⟨rfl, rfl, rfl, ⟨fun _ => rfl, fun _ => rfl⟩⟩
            · exact Except.noConfusion hok
  · intro h on_date hinv
    cases hl : h.last_completed_date with
    | none =>
        have hs0 : h.streak = 0 := hinv.mpr hl
        constructor
        · simp [check_off, hl, HabitInv]
        · left
          simp [check_off, hl, hs0]
    | some d =>
        have hs0 : h.streak ≠ 0 := by
          intro c
          rw [hinv.mp c] at hl
          exact Option.noConfusion hl
        have he := expected_next_date_eq_spec h d hl
        by_cases heq : on_date = nextPeriodDateSpec d h.periodicity
        · constructor
          · simp [HabitInv, check_off, hl, he, heq]
          · left
            simp [check_off, hl, he, heq]
        · by_cases hgt :
            Date.ltB (nextPeriodDateSpec d h.periodicity) on_date = true
          · constructor
            · simp [HabitInv, check_off, hl, he, heq, hgt]
            · right
              constructor
              · simp [check_off, hl, he, heq, hgt]
              · exact ⟨d, rfl, hgt⟩
          · constructor
            · simp only [HabitInv, check_off, hl, he]
              rw [if_neg heq, if_neg hgt]
              simpa using hs0
            · left
              simp only [check_off, hl, he]
              rw [if_neg heq, if_neg hgt]

/-- C5 witness: a freshly constructed daily habit satisfies the
invariant, and a check-off on 2025-01-07 from streak 1 anchored at
2025-01-06 keeps the invariant without decreasing the streak. -/
theorem habit_invariant_construction_preservation_witness :
    HabitInv (check_off ⟨"w5", "w5", "w5", ⟨⟨2025, 1, 6⟩, ⟨0, 0⟩⟩,
      Periodicity.daily, none, true, 1, some ⟨2025, 1, 6⟩⟩
        ⟨2025, 1, 7⟩) ∧
    (1 ≤ (check_off ⟨"w5", "w5", "w5", ⟨⟨2025, 1, 6⟩, ⟨0, 0⟩⟩,
      Periodicity.daily, none, true, 1, some ⟨2025, 1, 6⟩⟩
        ⟨2025, 1, 7⟩).streak ∨
      ((check_off ⟨"w5", "w5", "w5", ⟨⟨2025, 1, 6⟩, ⟨0, 0⟩⟩,
        Periodicity.daily, none, true, 1, some ⟨2025, 1, 6⟩⟩
          ⟨2025, 1, 7⟩).streak = 1 ∧
        ∃ d, (some ⟨2025, 1, 6⟩ : Option Date) = some d ∧
          Date.ltB (nextPeriodDateSpec d Periodicity.daily) ⟨2025, 1, 7⟩
            = true)) :=
  (habit_invariant_construction_preservation.2
    ⟨"w5", "w5", "w5", ⟨⟨2025, 1, 6⟩, ⟨0, 0⟩⟩, Periodicity.daily, none,
      true, 1, some ⟨2025, 1, 6⟩⟩ ⟨2025, 1, 7⟩
    (by simp [HabitInv]))

/-- Python's max with a key keeps the first of several maxima: folding
pickMax over vs from b lands on the first element of b :: vs whose
streak is maximal — everything before it is strictly smaller, everything
in the list is at most it. -/
lemma foldl_pickMax_spec (vs : List HabitView) (b : HabitView) :
    ∃ pre post, b :: vs = pre ++ (vs.foldl pickMax b) :: post ∧
      (∀ u ∈ pre, u.streak < (vs.foldl pickMax b).streak) ∧
      (∀ u ∈ b :: vs, u.streak ≤ (vs.foldl pickMax b).streak) := by
  induction vs generalizing b with
  | nil =>
      refine ⟨[], [], rfl, by simp, ?_⟩
      intro u hu
      simp only [List.mem_singleton] at hu
      simp [hu, List.foldl]
  | cons v vs ih =>
      have hstep : (v :: vs).foldl pickMax b = vs.foldl pickMax (pickMax b v) :=
        rfl
      obtain ⟨pre, post, hdec, hpre, hmax⟩ := ih (pickMax b v)
      by_cases hbv : b.streak < v.streak
      · have hpm : pickMax b v = v := if_pos hbv
        rw [hpm] at hdec hpre hmax
        refine ⟨b :: pre, post, ?_, ?_, ?_⟩
        · rw [hstep, hpm, List.cons_append, ← hdec]
        · intro u hu
          rw [hstep, hpm]
          rcases List.mem_cons.mp hu with hb | hp
          · subst hb
            exact lt_of_lt_of_le hbv (hmax v (List.mem_cons_self v vs))
          · exact hpre u hp
        · intro u hu
          rw [hstep, hpm]
          rcases List.mem_cons.mp hu with hb | hp
          · subst hb
            exact le_of_lt
              (lt_of_lt_of_le hbv (hmax v (List.mem_cons_self v vs)))
          · exact hmax u hp
      · have hpm : pickMax b v = b := if_neg hbv
        rw [hpm] at hdec hpre hmax
        have hvb : v.streak ≤ b.streak := le_of_not_lt hbv
        have hbtop : b.streak ≤ (vs.foldl pickMax b).streak :=
          hmax b (List.mem_cons_self b vs)
        cases pre with
        | nil =>
            have hb : b = vs.foldl pickMax b :=
              (List.cons.injEq _ _ _ _).mp hdec |>.1
            refine ⟨[], v :: vs, ?_, by simp, ?_⟩
            · rw [hstep, hpm, List.nil_append, ← hb]
            · intro u hu
              rw [hstep, hpm]
              rcases List.mem_cons.mp hu with h1 | h2
              · subst h1
                exact hbtop
              · rcases List.mem_cons.mp h2 with h3 | h4
                · subst h3
                  exact le_trans hvb hbtop
                · exact hmax u (List.mem_cons_of_mem b h4)
        | cons p0 pre' =>
            have hinj := (List.cons.injEq _ _ _ _).mp hdec
            have hb : b = p0 := hinj.1
            have hrest : vs = pre' ++ (vs.foldl pickMax b) :: post := hinj.2
            have hbtoplt : b.streak < (vs.foldl pickMax b).streak := by
              have hp0 := hpre p0 (List.mem_cons_self p0 pre')
              rw [← hb] at hp0
              exact hp0
            refine ⟨b :: v :: pre', post, ?_, ?_, ?_⟩
            · rw [hstep, hpm]
              rw [List.cons_append, List.cons_append]
              rw [← hrest]
            · intro u hu
              rw [hstep, hpm]
              rcases List.mem_cons.mp hu with h1 | h2
              · subst h1
                exact hbtoplt
              · rcases List.mem_cons.mp h2 with h3 | h4
                · subst h3
                  exact lt_of_le_of_lt hvb hbtoplt
                · exact hpre u (List.mem_cons_of_mem p0 h4)
            · intro u hu
              rw [hstep, hpm]
              rcases List.mem_cons.mp hu with h1 | h2
              · subst h1
                exact hbtop
              · rcases List.mem_cons.mp h2 with h3 | h4
                · subst h3
                  exact le_trans hvb hbtop
                · exact hmax u (List.mem_cons_of_mem b h4)

/-- C6: longest_run_streak returns (None, 0) on the empty list, and
otherwise the (id, streak) of a maximum-streak view; on ties the first
maximum in input order is returned (everything before the chosen view
has strictly smaller streak). -/
theorem longest_run_streak_stable_max (rows : List Row) :
    (rows = [] → longest_run_streak rows = (none, 0)) ∧
    (∀ v vs, list_all_habits rows = v :: vs →
      ∃ pre top post, v :: vs = pre ++ top :: post ∧
        longest_run_streak rows = (some top.id, top.streak) ∧
        (∀ u ∈ v :: vs, u.streak ≤ top.streak) ∧
        (∀ u ∈ pre, u.streak < top.streak)) := by
  constructor
  · intro h
    subst h
    rfl
  · intro v vs hlist
    obtain ⟨pre, post, hdec, hpre, hmax⟩ := foldl_pickMax_spec vs v
    refine ⟨pre, vs.foldl pickMax v, post, hdec, ?_, hmax, hpre⟩
    unfold longest_run_streak
    rw [hlist]

/-- C6 witness: on rows with streaks 2, 5, 5 the stable max is attained
and the function returns the id of the first streak-5 row. -/
theorem longest_run_streak_stable_max_witness :
    longest_run_streak
        [⟨1, "a", some "daily", some 2, none⟩,
         ⟨2, "b", some "daily", some 5, none⟩,
         ⟨3, "c", some "weekly", some 5, none⟩] = (some 2, 5) ∧
    ∃ pre top post,
      [(⟨1, "a", "daily", 2, none⟩ : HabitView),
       ⟨2, "b", "daily", 5, none⟩, ⟨3, "c", "weekly", 5, none⟩] =
          pre ++ top :: post ∧
        longest_run_streak
          [⟨1, "a", some "daily", some 2, none⟩,
           ⟨2, "b", some "daily", some 5, none⟩,
           ⟨3, "c", some "weekly", some 5, none⟩] =
            (some top.id, top.streak) ∧
        (∀ u ∈ [(⟨1, "a", "daily", 2, none⟩ : HabitView),
          ⟨2, "b", "daily", 5, none⟩, ⟨3, "c", "weekly", 5, none⟩],
            u.streak ≤ top.streak) ∧
        (∀ u ∈ pre, u.streak < top.streak) :=
  ⟨by decide,
    (longest_run_streak_stable_max
      [⟨1, "a", some "daily", some 2, none⟩,
       ⟨2, "b", some "daily", some 5, none⟩,
       ⟨3, "c", some "weekly", some 5, none⟩]).2
      ⟨1, "a", "daily", 2, none⟩
      [⟨2, "b", "daily", 5, none⟩, ⟨3, "c", "weekly", 5, none⟩] rfl⟩

/-- C7: not-found conditions are sentinel results, never errors:
longest_run_streak_for returns the streak of the first row whose id
matches and 0 when none matches, and list_by_periodicity returns the
empty list when no row has the queried periodicity. -/
theorem analytics_not_found_sentinels (rows : List Row) (hid : Int)
    (p : String) :
    ((∀ r ∈ rows, r.id ≠ hid) → longest_run_streak_for rows hid = 0) ∧
    (∀ pre r post, rows = pre ++ r :: post →
      (∀ q ∈ pre, q.id ≠ hid) → r.id = hid →
      longest_run_streak_for rows hid = r.streak.getD 0) ∧
    ((∀ r ∈ rows, r.periodicity ≠ some p) →
      list_by_periodicity rows p = []) := by
  refine ⟨?_, ?_, ?_⟩
  · intro hno
    unfold longest_run_streak_for
    have : rows.find? (fun r => r.id == hid) = none := by
      rw [List.find?_eq_none]
      intro x hx
      simpa using hno x hx
    rw [this]
  · intro pre r post hrows hpre hr
    subst hrows
    unfold longest_run_streak_for
    have hfind : ∀ (pr : List Row), (∀ q ∈ pr, q.id ≠ hid) →
        ((pr ++ r :: post).find? (fun q => q.id == hid)) = some r := by
      intro pr
      induction pr with
      | nil =>
          intro _
          simp [List.find?_cons_of_pos, hr]
      | cons q pr' ih =>
          intro hall
          have hq : (q.id == hid) = false := by
            simpa using hall q (List.mem_cons_self q pr')
          rw [List.cons_append, List.find?_cons_of_neg _ (by simp [hq])]
          exact ih (fun x hx => hall x (List.mem_cons_of_mem q hx))
    rw [hfind pre hpre]
  · intro hnone
    unfold list_by_periodicity
    have : rows.filter (fun r => r.periodicity == some p) = [] := by
      rw [List.filter_eq_nil_iff]
      intro a ha
      simpa using hnone a ha
    rw [this]
    rfl

/-- C7 witness: on two concrete rows, an unknown id 9999 yields 0 and a
periodicity matched by no row yields the empty list, neither an error. -/
theorem analytics_not_found_sentinels_witness :
    longest_run_streak_for
        [⟨1, "a", some "daily", some 28, none⟩,
         ⟨4, "b", some "weekly", some 4, none⟩] 9999 = 0 ∧
    list_by_periodicity
        [⟨1, "a", some "daily", some 28, none⟩,
         ⟨4, "b", some "weekly", some 4, none⟩] "monthly" = [] :=
  ⟨(analytics_not_found_sentinels
      [⟨1, "a", some "daily", some 28, none⟩,
       ⟨4, "b", some "weekly", some 4, none⟩] 9999 "monthly").1
      (by decide),
   (analytics_not_found_sentinels
      [⟨1, "a", some "daily", some 28, none⟩,
       ⟨4, "b", some "weekly", some 4, none⟩] 9999 "monthly").2.2
      (by decide)⟩

/-- parseReminder fails exactly on a supplied non-empty reminder string
that does not parse as %H:%M. -/
lemma parseReminder_error_iff (rm : Option String) :
    (∃ e, parseReminder rm = Except.error e) ↔
      ∃ r, rm = some r ∧ r.toList ≠ [] ∧ parseHM r = none := by
  cases rm with
  | none => simp [parseReminder]
  | some r =>
      by_cases hr : r.toList = []
      · have hr' : r.data = [] := hr
        simp [parseReminder, hr, hr']
      · have hr' : ¬ r.data = [] := hr
        cases hhm : parseHM r with
        | none => simp [parseReminder, hr, hr', hhm]
        | some t => simp [parseReminder, hr, hr', hhm]

/-- C8 counterexample: the empty string is a supplied reminder that does
not parse as HH:MM, yet from_form succeeds (Python's `if reminder:` is
false for the empty string) and yields a habit with no reminder. -/
theorem from_form_empty_reminder_cex :
    parseHM "" = none ∧
    from_form "n" "d" "g" "2025-01-06" "daily" (some "") =
      Except.ok ⟨"n", "d", "g", ⟨⟨2025, 1, 6⟩, ⟨0, 0⟩⟩, Periodicity.daily,
        none, false, 0, none⟩ :=
  ⟨rfl, rfl⟩

/-- C8 (amended): from_form fails exactly when the start date is not
parsable as YYYY-MM-DD, or a supplied non-empty reminder is not parsable
as HH:MM, or the periodicity is outside daily/weekly/monthly (with a
descriptive error); an absent reminder yields a habit with no reminder,
and no other input fails. -/
theorem from_form_error_characterization
    (nm ds gl sd p : String) (rm : Option String) :
    ((∃ e, from_form nm ds gl sd p rm = Except.error e) ↔
      (parseYMD sd = none ∨
        (∃ r, rm = some r ∧ r.toList ≠ [] ∧ parseHM r = none) ∨
        (p ≠ "daily" ∧ p ≠ "weekly" ∧ p ≠ "monthly"))) ∧
    (rm = none → ∀ h, from_form nm ds gl sd p rm = Except.ok h →
      h.reminder = none) := by
  constructor
  · cases hY : parseYMD sd with
    | none =>
        simp only [from_form, hY]
        exact iff_of_true ⟨_, rfl⟩ (Or.inl (by trivial))
    | some sd' =>
        cases hR : parseReminder rm with
        | error e0 =>
            simp only [from_form, hY, hR]
            refine iff_of_true ⟨e0, rfl⟩ (Or.inr (Or.inl ?_))
            exact (parseReminder_error_iff rm).mp ⟨e0, hR⟩
        | ok rt =>
            simp only [from_form, hY, hR]
            have hnoRem :
                ¬ ∃ r, rm = some r ∧ r.toList ≠ [] ∧ parseHM r = none := by
              intro hbad
              obtain ⟨e1, he1⟩ := (parseReminder_error_iff rm).mpr hbad
              rw [hR] at he1
              exact Except.noConfusion he1
            by_cases hd : p = "daily"
            · rw [if_pos hd]
              refine iff_of_false ?_ ?_
              · rintro ⟨e, he⟩
                exact Except.noConfusion he
              · rintro (h1 | h2 | h3)
                · exact Option.noConfusion h1
                · exact hnoRem h2
                · exact h3.1 hd
            · rw [if_neg hd]
              by_cases hw : p = "weekly"
              · rw [if_pos hw]
                refine iff_of_false ?_ ?_
                · rintro ⟨e, he⟩
                  exact Except.noConfusion he
                · rintro (h1 | h2 | h3)
                  · exact Option.noConfusion h1
                  · exact hnoRem h2
                  · exact h3.2.1 hw
              · rw [if_neg hw]
                by_cases hm : p = "monthly"
                · rw [if_pos hm]
                  refine iff_of_false ?_ ?_
                  · rintro ⟨e, he⟩
                    exact Except.noConfusion he
                  · rintro (h1 | h2 | h3)
                    · exact Option.noConfusion h1
                    · exact hnoRem h2
                    · exact h3.2.2 hm
                · rw [if_neg hm]
                  exact iff_of_true ⟨_, rfl⟩ (Or.inr (Or.inr ⟨hd, hw, hm⟩))
  · intro hrm h hok
    subst hrm
    unfold from_form at hok
    split at hok
    · exact Except.noConfusion hok
    · simp only [parseReminder] at hok
      split at hok
      · injection hok with h2
        subst h2
        rfl
      · split at hok
        · injection hok with h2
          subst h2
          rfl
        · split at hok
          · injection hok with h2
            subst h2
            rfl
          · exact Except.noConfusion hok

/-- C8 witness: a periodicity outside the recognized set makes from_form
fail on otherwise valid input. -/
theorem from_form_error_characterization_witness :
    ∃ e, from_form "a" "b" "c" "2025-01-06" "yearly" none =
      Except.error e :=
  (from_form_error_characterization "a" "b" "c" "2025-01-06" "yearly"
      none).1.mpr (Or.inr (Or.inr (by decide)))

/-- C9: constructing a habit from the valid form strings "2025-01-06",
"daily" and "09:00" succeeds, and reading back the start-date and
reminder fields yields exactly that calendar date and time-of-day. -/
theorem from_form_round_trip :
    ∃ h, from_form "Morning Run" "Run 2km" "Health" "2025-01-06" "daily"
        (some "09:00") = Except.ok h ∧
      h.start_date.date = ⟨2025, 1, 6⟩ ∧ h.reminder = some ⟨9, 0⟩ := by
  exact ⟨⟨"Morning Run", "Run 2km", "Health", ⟨⟨2025, 1, 6⟩, ⟨0, 0⟩⟩,
    Periodicity.daily, some ⟨9, 0⟩, false, 0, none⟩, rfl, rfl, rfl⟩
